import Mathlib

/-!
Verification of the session-pool / protocol-client core of `jvm-mcp-server`
(`src/jvm_mcp_server/connection_pool.py`, `arthas.py`, `config.py`).

Times (`time.time()` values and the configured timeouts) are modelled as
integers; Python floats only matter here through comparisons and
subtractions, which the claims exercise at integer points.
-/

/-- Pool parameters, from `ArthasConnectionPool.__init__`
(connection_pool.py lines 40-46, default values). -/
structure PoolConfig where
  max_size : Nat
  connection_timeout : Int
  idle_timeout : Int
  max_lifetime : Int
  deriving Repr, DecidableEq

/-- The default parameter values of `ArthasConnectionPool.__init__`
(connection_pool.py lines 40-46). -/
def defaultPoolConfig : PoolConfig :=
  { max_size := 5, connection_timeout := 5, idle_timeout := 300, max_lifetime := 3600 }

/-- The `PooledConnection` dataclass (connection_pool.py lines 18-27),
minus the `client` field, whose handles are modelled separately for the
protocol client (see `ClientHandles`). -/
structure PooledConnection where
  pid : Nat
  created_at : Int
  last_used_at : Int
  is_busy : Bool := false
  health_check_count : Nat := 0
  failed_count : Nat := 0
  deriving Repr, DecidableEq

/-- `ArthasConnectionPool._is_connection_valid` (connection_pool.py lines
194-213): three guard clauses returning `False`, else `True`.  `now` is the
value of `time.time()` at the call. -/
def isConnectionValid (p : PoolConfig) (now : Int) (conn : PooledConnection) : Bool :=
  if now - conn.created_at > p.max_lifetime then false
  else if !conn.is_busy && (now - conn.last_used_at > p.idle_timeout) then false
  else if conn.failed_count > 3 then false
  else true

/-- Validity as worded by the spec (for claim C2): age **strictly** below
`maxLifetime`, and idle time **strictly** below `idleTimeout`.  Kept
separate from `isConnectionValid` so that the two can be compared. -/
def specConnectionValid (p : PoolConfig) (now : Int) (conn : PooledConnection) : Prop :=
  now - conn.created_at < p.max_lifetime ∧
    (conn.is_busy = true ∨ now - conn.last_used_at < p.idle_timeout) ∧
    conn.failed_count ≤ 3

instance (p : PoolConfig) (now : Int) (conn : PooledConnection) :
    Decidable (specConnectionValid p now conn) := by
  unfold specConnectionValid; infer_instance

/-- A connection exactly at the lifetime boundary: created at time 0 and
evaluated at `now = 3600 = max_lifetime`. -/
def boundaryConn : PooledConnection :=
  { pid := 1, created_at := 0, last_used_at := 3600, is_busy := true }

/-- **C2, counterexample.**  At `now - created_at = max_lifetime` the code
(`now - conn.created_at > self.max_lifetime` is false, so the connection
passes the age guard) reports the connection valid, while the claim's
strict bound `age < maxLifetime` calls it invalid.  So the claimed
iff fails. -/
theorem c2_counterexample :
    isConnectionValid defaultPoolConfig 3600 boundaryConn = true ∧
      ¬ specConnectionValid defaultPoolConfig 3600 boundaryConn := by
  constructor
  · decide
  · decide

/-- **C2, amended.**  `_is_connection_valid` returns `true` iff
`now - created_at ≤ max_lifetime`, and (`is_busy` or
`now - last_used_at ≤ idle_timeout`), and `failed_count ≤ 3`: the age and
idle bounds are non-strict (the code tests `>` and keeps the boundary),
not strict as the claim states; the failure-count bound `≤ 3` is as
claimed. -/
theorem c2_validity_iff (p : PoolConfig) (now : Int) (conn : PooledConnection) :
    isConnectionValid p now conn = true ↔
      (now - conn.created_at ≤ p.max_lifetime ∧
        (conn.is_busy = true ∨ now - conn.last_used_at ≤ p.idle_timeout) ∧
        conn.failed_count ≤ 3) := by
  unfold isConnectionValid
  rcases conn with ⟨pid, created, lastUsed, busy, hc, fc⟩
  cases busy <;> simp

/-- The whitespace characters on which Python's argument-less `str.split()`
splits (everything for which `str.isspace()` holds): ASCII whitespace,
the C1 control spaces, and the Unicode space separators. -/
def isPySpace (c : Char) : Bool :=
  c ∈ [' ', '\t', '\n', '\x0b', '\x0c', '\r',
       '\x1c', '\x1d', '\x1e', '\x1f', '\x85', '\xa0',
       ' ', ' ', ' ', ' ', ' ', ' ', ' ',
       ' ', ' ', ' ', ' ', ' ',
       ' ', ' ', ' ', ' ', '　']

/-- `command.split()[0]`: the leading whitespace-delimited token of a
string, or `none` when the string is empty or all-whitespace (in which
case Python's `[0]` raises `IndexError`). -/
def firstToken (s : String) : Option String :=
  let l := s.data.dropWhile isPySpace
  match l with
  | [] => none
  | _ => some (String.mk (l.takeWhile (fun c => !isPySpace c)))

/-- `str.lower()`, character by character.  The registry keys this feeds
into are all ASCII, for which `Char.toLower` agrees with Python. -/
def pyLower (s : String) : String :=
  String.mk (s.data.map Char.toLower)

/-- The `CommandConfig` dataclass (config.py lines 13-19). -/
structure CommandConfig where
  timeout : Int
  max_retries : Nat := 3
  retry_interval : Nat := 1
  description : String := ""
  deriving Repr, DecidableEq

/-- The built-in `command_timeouts` registry of `ArthasConfig`
(config.py lines 33-60), as an association list in source order. -/
def defaultCommandTimeouts : List (String × CommandConfig) :=
  [("version", { timeout := 10, max_retries := 3, retry_interval := 1, description := "获取版本信息" }),
   ("help", { timeout := 10, max_retries := 3, retry_interval := 1, description := "获取帮助信息" }),
   ("thread", { timeout := 20, max_retries := 3, retry_interval := 2, description := "查看线程信息" }),
   ("stack", { timeout := 25, max_retries := 3, retry_interval := 2, description := "查看方法调用栈" }),
   ("thread_pool", { timeout := 20, max_retries := 3, retry_interval := 2, description := "查看线程池信息" }),
   ("sc", { timeout := 25, max_retries := 3, retry_interval := 2, description := "查看类信息" }),
   ("sm", { timeout := 25, max_retries := 3, retry_interval := 2, description := "查看方法信息" }),
   ("jad", { timeout := 30, max_retries := 3, retry_interval := 2, description := "反编译类" }),
   ("monitor", { timeout := 40, max_retries := 3, retry_interval := 2, description := "方法监控" }),
   ("watch", { timeout := 40, max_retries := 3, retry_interval := 2, description := "方法执行数据观测" }),
   ("trace", { timeout := 40, max_retries := 3, retry_interval := 2, description := "方法调用路径追踪" }),
   ("dashboard", { timeout := 20, max_retries := 3, retry_interval := 2, description := "系统面板" }),
   ("jvm", { timeout := 20, max_retries := 3, retry_interval := 2, description := "JVM信息" }),
   ("memory", { timeout := 20, max_retries := 3, retry_interval := 2, description := "内存信息" }),
   ("default", { timeout := 25, max_retries := 3, retry_interval := 2, description := "默认配置" })]

/-- Python-level errors that escape the modelled functions. -/
inductive PyErr where
  | indexError
  | keyError
  deriving Repr, DecidableEq

deriving instance DecidableEq for Except

/-- `ArthasConfig.get_command_config` (config.py lines 136-148):
`cmd_name = command.split()[0].lower()` then
`self.command_timeouts.get(cmd_name, self.command_timeouts['default'])`.
`command.split()[0]` raises `IndexError` on an empty/all-whitespace
command; Python evaluates the `.get` fallback argument
`self.command_timeouts['default']` eagerly, so a registry without a
`"default"` key raises `KeyError` before the lookup. -/
def getCommandConfig (table : List (String × CommandConfig)) (command : String) :
    Except PyErr CommandConfig :=
  match firstToken command with
  | none => .error .indexError
  | some tok =>
    match table.lookup "default" with
    | none => .error .keyError
    | some d => .ok ((table.lookup (pyLower tok)).getD d)

/-- Lookup as worded by claim C7 (for comparison with the source's
`getCommandConfig`): the entry whose key is an **exact** match for the
leading token, else the `default` entry — no lowercasing. -/
def exactMatchLookup (table : List (String × CommandConfig)) (tok : String) :
    Option CommandConfig :=
  match table.lookup tok with
  | some c => some c
  | none => table.lookup "default"

/-- **C7, counterexample.**  On the command `"THREAD 1"` the leading token
`"THREAD"` has no exact-match key, so the claim requires the `default`
entry (timeout 25); the code lowercases the token first and returns the
`thread` entry (timeout 20). -/
theorem c7_counterexample :
    getCommandConfig defaultCommandTimeouts "THREAD 1" =
        .ok { timeout := 20, max_retries := 3, retry_interval := 2,
              description := "查看线程信息" } ∧
      exactMatchLookup defaultCommandTimeouts "THREAD" =
        some { timeout := 25, max_retries := 3, retry_interval := 2,
               description := "默认配置" } ∧
      getCommandConfig defaultCommandTimeouts "THREAD 1" ≠
        .ok { timeout := 25, max_retries := 3, retry_interval := 2,
              description := "默认配置" } := by
  refine ⟨by decide, by decide, by decide⟩

/-- **C7, amended.**  For every command with at least one token,
`get_command_config` returns the entry whose key is an exact match for the
**lowercased** leading token (the code runs `.lower()` on the token before
the lookup), and the `default` entry whenever no such match exists. -/
theorem c7_amended (command tok : String) (h : firstToken command = some tok) :
    ∃ c, exactMatchLookup defaultCommandTimeouts (pyLower tok) = some c ∧
      getCommandConfig defaultCommandTimeouts command = .ok c := by
  have hg : getCommandConfig defaultCommandTimeouts command =
      .ok ((List.lookup (pyLower tok) defaultCommandTimeouts).getD
        { timeout := 25, max_retries := 3, retry_interval := 2,
          description := "默认配置" }) := by
    unfold getCommandConfig
    rw [h]
    exact rfl
  have he : exactMatchLookup defaultCommandTimeouts (pyLower tok) =
      some ((List.lookup (pyLower tok) defaultCommandTimeouts).getD
        { timeout := 25, max_retries := 3, retry_interval := 2,
          description := "默认配置" }) := by
    unfold exactMatchLookup
    cases hl : List.lookup (pyLower tok) defaultCommandTimeouts with
    | none => decide
    | some c => rfl
  exact ⟨_, he, hg⟩

/-- Witness for `c7_amended` at the command `"THREAD 1"`. -/
theorem c7_witness :
    ∃ c, exactMatchLookup defaultCommandTimeouts (pyLower "THREAD") = some c ∧
      getCommandConfig defaultCommandTimeouts "THREAD 1" = .ok c :=
  c7_amended "THREAD 1" "THREAD" (by decide)

/-- The exceptions observable from one attempt of the command-execution
body of `ArthasClient._execute_command_internal` (arthas.py lines
430-555), plus the errors of the surrounding plumbing. -/
inductive ExecErr where
  /-- A `PyErr` from the policy lookup (the `IndexError` of
  `command.split()[0]` on an empty command, arthas.py line 422). -/
  | py (e : PyErr)
  /-- `TimeoutError` / `socket.timeout` (caught at line 543). -/
  | timeoutClass
  /-- Any other exception — structural errors such as unknown command or
  bad arguments included (caught at line 550). -/
  | otherExc (msg : String)
  /-- Line 557: the `for` loop finished without returning or re-raising
  (only possible when `max_retries == 0`). -/
  | exhausted
  deriving Repr, DecidableEq

/-- The retry loop `for retry in range(max_retries)` of
`_execute_command_internal` (arthas.py lines 430-557).  `script i` is the
outcome the channel produces for attempt `i` (the whole send/accumulate
body).  Both `except` arms behave identically: if `retry <
max_retries - 1`, sleep `retry_interval` and continue, else re-raise
(lines 543-555).  Returns (result, attempts made, total seconds slept).
`fuel` is the number of loop iterations remaining, `i` the attempt index,
`slept` the accumulated sleep. -/
def runRetryAux (interval : Nat) (script : Nat → Except ExecErr String) :
    Nat → Nat → Nat → Except ExecErr String × Nat × Nat
  | 0, i, slept => (.error .exhausted, i, slept)
  | fuel + 1, i, slept =>
    match script i with
    | .ok v => (.ok v, i + 1, slept)
    | .error e =>
      if fuel = 0 then (.error e, i + 1, slept)
      else runRetryAux interval script fuel (i + 1) (slept + interval)

/-- Entry point of the retry loop: `max_retries` iterations, starting at
attempt 0 with nothing slept. -/
def runRetry (maxR interval : Nat) (script : Nat → Except ExecErr String) :
    Except ExecErr String × Nat × Nat :=
  runRetryAux interval script maxR 0 0

/-- `ArthasClient._execute_command_internal` (arthas.py lines 419-557)
up to the channel interaction: resolve the command's policy via
`config.get_command_config(command.split()[0])` (line 422 — the outer
`split()[0]` raises `IndexError` first on an empty/whitespace command;
on a token, `get_command_config`'s own split is the identity), then run
the retry loop with the policy's `max_retries`/`retry_interval`.
`get_command_config` never returns a falsy value, so the `if cmd_config`
fallbacks of lines 425-427 are dead. -/
def executeCommandInternal (command : String) (script : Nat → Except ExecErr String) :
    Except ExecErr String × Nat × Nat :=
  match getCommandConfig defaultCommandTimeouts command with
  | .error pe => (.error (.py pe), 0, 0)
  | .ok cfg => runRetry cfg.max_retries cfg.retry_interval script

/-- An attempt script whose first attempt fails with a structural error
(unknown command) and whose second attempt succeeds. -/
def c5Script : Nat → Except ExecErr String := fun i =>
  if i = 0 then .error (.otherExc "Arthas会话未建立") else .ok "output"

/-- **C5, counterexample.**  The first attempt of `"thread 1"` fails with
a structural (non-timeout) error, yet execution is retried and ends in
success after 2 attempts with one `retry_interval = 2` sleep — the
generic `except Exception` arm (arthas.py lines 550-555) retries
structural errors exactly like timeouts instead of surfacing them on the
first failed attempt, contradicting the claim. -/
theorem c5_counterexample :
    c5Script 0 = .error (.otherExc "Arthas会话未建立") ∧
      executeCommandInternal "thread 1" c5Script = (.ok "output", 2, 2) := by
  refine ⟨by decide, by decide⟩

/-- Retry-loop unrolling: if the first `k` attempts (from attempt `i`) all
fail and attempt `i + k` succeeds within the remaining fuel, the loop
returns that success after `k + 1` attempts and `k` sleeps — regardless of
which exception class the failures carried. -/
theorem runRetryAux_ok (interval : Nat) (script : Nat → Except ExecErr String) :
    ∀ (fuel i slept k : Nat) (v : String), k < fuel →
      (∀ j, j < k → (script (i + j)).isOk = false) →
      script (i + k) = .ok v →
      runRetryAux interval script fuel i slept = (.ok v, i + k + 1, slept + k * interval) := by
  intro fuel
  induction fuel with
  | zero => intro i slept k v hk; omega
  | succ fuel ih =>
    intro i slept k v hk hfail hok
    cases k with
    | zero =>
      have hok' : script i = .ok v := by simpa using hok
      unfold runRetryAux
      rw [hok']
      simp
    | succ k' =>
      have h0 : (script i).isOk = false := by simpa using hfail 0 (by omega)
      obtain ⟨e, he⟩ : ∃ e, script i = .error e := by
        cases hsc : script i with
        | ok w => rw [hsc] at h0; simp [Except.isOk, Except.toBool] at h0
        | error e => exact ⟨e, rfl⟩
      have hfz : fuel ≠ 0 := by omega
      unfold runRetryAux
      rw [he]
      simp only [hfz, if_false]
      have hrec := ih (i + 1) (slept + interval) k' v (by omega)
        (fun j hj => by
          have := hfail (j + 1) (by omega)
          simpa [Nat.add_assoc, Nat.add_comm 1 j] using this)
        (by
          have harg : i + 1 + k' = i + (k' + 1) := by omega
          rw [harg]; exact hok)
      rw [hrec]
      have h1 : i + 1 + k' + 1 = i + (k' + 1) + 1 := by omega
      have h2 : slept + interval + k' * interval = slept + (k' + 1) * interval := by
        rw [Nat.succ_mul]; omega
      rw [h1, h2]

/-- Retry-loop exhaustion: if every attempt in the window fails, the loop
re-raises the error of the **last** attempt after `fuel` attempts and
`fuel - 1` sleeps. -/
theorem runRetryAux_exhaust (interval : Nat) (script : Nat → Except ExecErr String) :
    ∀ (fuel i slept : Nat) (e : ExecErr), 0 < fuel →
      (∀ j, j < fuel → (script (i + j)).isOk = false) →
      script (i + fuel - 1) = .error e →
      runRetryAux interval script fuel i slept =
        (.error e, i + fuel, slept + (fuel - 1) * interval) := by
  intro fuel
  induction fuel with
  | zero => intro i slept e h; omega
  | succ fuel ih =>
    intro i slept e _ hfail hlast
    cases fuel with
    | zero =>
      have hlast' : script i = .error e := by simpa using hlast
      unfold runRetryAux
      rw [hlast']
      simp
    | succ f =>
      have h0 : (script i).isOk = false := by simpa using hfail 0 (by omega)
      obtain ⟨e0, he0⟩ : ∃ e0, script i = .error e0 := by
        cases hsc : script i with
        | ok w => rw [hsc] at h0; simp [Except.isOk, Except.toBool] at h0
        | error e0 => exact ⟨e0, rfl⟩
      have hfz : f + 1 ≠ 0 := by omega
      unfold runRetryAux
      rw [he0]
      simp only [hfz, if_false]
      have hrec := ih (i + 1) (slept + interval) e (by omega)
        (fun j hj => by
          have := hfail (j + 1) (by omega)
          simpa [Nat.add_assoc, Nat.add_comm 1 j] using this)
        (by
          have harg : i + 1 + (f + 1) - 1 = i + (f + 1 + 1) - 1 := by omega
          rw [harg]; exact hlast)
      rw [hrec]
      have h1 : i + 1 + (f + 1) = i + (f + 1 + 1) := by omega
      have h2 : slept + interval + (f + 1 - 1) * interval =
          slept + (f + 1 + 1 - 1) * interval := by
        simp only [Nat.add_sub_cancel]
        rw [Nat.succ_mul]; omega
      rw [h1, h2]

/-- **C5, amended.**  Command execution resolves the command's policy (by
lowercased leading token) and attempts the command up to `max_retries`
times, sleeping `retry_interval` seconds between attempts — but **every**
exception class is retried the same way: the `except Exception` arm
(arthas.py lines 550-555) sleeps and continues exactly like the
timeout arm (lines 543-548), so structural errors are retried too, and an
error is surfaced only when it occurs on the final attempt. -/
theorem c5_amended :
    (∀ (command : String) (cfg : CommandConfig) (script : Nat → Except ExecErr String),
        getCommandConfig defaultCommandTimeouts command = .ok cfg →
        executeCommandInternal command script =
          runRetry cfg.max_retries cfg.retry_interval script) ∧
    (∀ (maxR interval k : Nat) (script : Nat → Except ExecErr String) (v : String),
        k < maxR → (∀ j, j < k → (script j).isOk = false) → script k = .ok v →
        runRetry maxR interval script = (.ok v, k + 1, k * interval)) ∧
    (∀ (maxR interval : Nat) (script : Nat → Except ExecErr String) (e : ExecErr),
        0 < maxR → (∀ j, j < maxR → (script j).isOk = false) →
        script (maxR - 1) = .error e →
        runRetry maxR interval script = (.error e, maxR, (maxR - 1) * interval)) := by
  refine ⟨?_, ?_, ?_⟩
  · intro command cfg script hcfg
    unfold executeCommandInternal
    rw [hcfg]
  · intro maxR interval k script v hk hfail hok
    have := runRetryAux_ok interval script maxR 0 0 k v hk
      (fun j hj => by simpa using hfail j hj) (by simpa using hok)
    simpa using this
  · intro maxR interval script e hpos hfail hlast
    have := runRetryAux_exhaust interval script maxR 0 0 e hpos
      (fun j hj => by simpa using hfail j hj) (by simpa using hlast)
    simpa using this

/-- Witness for `c5_amended`: the command `"thread 1"` resolves to the
`thread` policy (3 retries, 2s interval), and a script failing once then
succeeding is retried to success. -/
theorem c5_witness :
    executeCommandInternal "thread 1" c5Script = runRetry 3 2 c5Script ∧
      runRetry 3 2 c5Script = (.ok "output", 2, 2) :=
  ⟨c5_amended.1 "thread 1"
      { timeout := 20, max_retries := 3, retry_interval := 2, description := "查看线程信息" }
      c5Script (by decide),
    c5_amended.2.1 3 2 1 c5Script "output" (by decide) (by decide) (by decide)⟩

/-- **C10.**  An empty or all-whitespace command makes `command.split()`
return `[]`, so the `[0]` indexing raises `IndexError` in
`ArthasConfig.get_command_config` (config.py line 147) and in
`ArthasClient._execute_command_internal` (arthas.py line 422) alike,
before any policy is resolved, before the retry loop starts (0 attempts)
and before any channel I/O. -/
theorem c10_whitespace_index_error (command : String)
    (h : ∀ c ∈ command.data, isPySpace c = true) :
    getCommandConfig defaultCommandTimeouts command = .error .indexError ∧
      ∀ script, executeCommandInternal command script = (.error (.py .indexError), 0, 0) := by
  have ht : firstToken command = none := by
    unfold firstToken
    have hnil : command.data.dropWhile isPySpace = [] := by
      rw [List.dropWhile_eq_nil_iff]
      exact h
    simp only [hnil]
  have hg : getCommandConfig defaultCommandTimeouts command = .error .indexError := by
    unfold getCommandConfig
    rw [ht]
  refine ⟨hg, fun script => ?_⟩
  unfold executeCommandInternal
  rw [hg]

/-- Witness for `c10_whitespace_index_error` at the single-space command. -/
theorem c10_witness :
    getCommandConfig defaultCommandTimeouts " " = .error .indexError ∧
      executeCommandInternal " " c5Script = (.error (.py .indexError), 0, 0) :=
  ⟨(c10_whitespace_index_error " " (by decide)).1,
    (c10_whitespace_index_error " " (by decide)).2 c5Script⟩

/-- `len(chunk.encode('utf-8'))` for a decoded chunk: the UTF-8 byte
length of a list of characters (arthas.py lines 455 / 508). -/
def byteLen (l : List Char) : Nat := (l.map Char.utf8Size).sum

/-- The hardcoded output cap `max_output_size = 50000` of
`_execute_command_internal` (arthas.py line 428). -/
def maxOutputSize : Nat := 50000

/-- The output-accumulation loop of `_execute_command_internal`
(arthas.py lines 444-470, SSH path; lines 497-527, telnet path — the two
are the same algorithm).  `chunks` is the successive decoded chunks the
channel delivers inside the deadline; exhausting them without a break
means the deadline passed, which raises `TimeoutError` (lines 472-473 /
529-530).  Per chunk: if the accumulated byte count plus the chunk's
byte count exceeds the cap, append the first `remaining = cap - size`
**characters** of the chunk (Python slices the decoded string, not its
bytes), set `truncated` and stop; otherwise append the chunk, add its
byte count, and stop without truncation when the chunk contains the `$`
prompt marker.  Returns (accumulated output, truncated flag). -/
def accumulateOutput :
    List (List Char) → List Char → Nat → Except ExecErr (List Char × Bool)
  | [], _, _ => .error .timeoutClass
  | c :: rest, out, size =>
    if size + byteLen c > maxOutputSize then
      .ok (out ++ c.take (maxOutputSize - size), true)
    else if c.contains '$' then
      .ok (out ++ c, false)
    else
      accumulateOutput rest (out ++ c) (size + byteLen c)

/-- The truncation marker appended when output was truncated (arthas.py
lines 480-481 / 537-538). -/
def truncMarker : String := "\n... (输出已截断，超过50KB)"

/-- Result assembly of `_execute_command_internal` (arthas.py lines
475-483 / 532-538): split the accumulated output on newlines, keep only
non-empty lines that neither echo the command nor contain the prompt
marker, re-join, and append `truncMarker` when truncated. -/
def buildResult (command : String) (out : List Char) (truncated : Bool) : String :=
  let lines := (String.mk out).splitOn "\n"
  let lines := lines.filter (fun line =>
    line ≠ "" && !line.startsWith command && !line.contains '$')
  let result := String.intercalate "\n" lines
  if truncated then result ++ truncMarker else result

/-- `contains` over a replicated list of a different character is false. -/
theorem contains_replicate_ne (n : Nat) (c d : Char) (h : (d == c) = false) :
    (List.replicate n c).contains d = false := by
  induction n with
  | zero => rfl
  | succ n ih => simp_all [List.replicate_succ, List.contains_cons]

/-- 49999 one-byte characters: almost a full output budget. -/
def bigChunk : List Char := List.replicate 49999 'a'

/-- `bigChunk` is 49999 bytes of UTF-8. -/
theorem byteLen_bigChunk : byteLen bigChunk = 49999 := by
  unfold bigChunk byteLen
  have h1 : 'a'.utf8Size = 1 := by decide
  rw [List.map_replicate, h1, List.sum_replicate, smul_eq_mul, Nat.mul_one]

/-- **C3, counterexample.**  With 49999 bytes already accumulated, a chunk
of two 2-byte characters (`é`) trips the cap check; the code then slices
`chunk[:remaining]` with `remaining = 1` counted in **bytes** but sliced
in **characters**, appending one 2-byte character — the returned output
is 50001 bytes, exceeding the 50000-byte cap the claim states (though the
truncated flag is set). -/
theorem c3_counterexample :
    accumulateOutput [bigChunk, ['é', 'é']] [] 0 = .ok (bigChunk ++ ['é'], true) ∧
      byteLen (bigChunk ++ ['é']) = 50001 := by
  have hc : bigChunk.contains '$' = false := by
    unfold bigChunk
    exact contains_replicate_ne 49999 'a' '$' (by decide)
  constructor
  · have hn1 : ¬ (0 + byteLen bigChunk > maxOutputSize) := by
      rw [byteLen_bigChunk]; decide
    have hn2 : ¬ (bigChunk.contains '$' = true) := by rw [hc]; decide
    rw [accumulateOutput, if_neg hn1, if_neg hn2]
    have hn3 : 0 + byteLen bigChunk + byteLen ['é', 'é'] > maxOutputSize := by
      rw [byteLen_bigChunk]; decide
    rw [accumulateOutput, if_pos hn3, byteLen_bigChunk]
    simp [maxOutputSize]
  · unfold byteLen
    rw [List.map_append, List.sum_append]
    have hb' : (List.map Char.utf8Size bigChunk).sum = 49999 := byteLen_bigChunk
    rw [hb']
    decide

/-- A chunk never has more characters than UTF-8 bytes. -/
theorem length_le_byteLen (l : List Char) : l.length ≤ byteLen l := by
  induction l with
  | nil => simp [byteLen]
  | cons c cs ih =>
    unfold byteLen at ih ⊢
    simp only [List.map_cons, List.sum_cons, List.length_cons]
    have := Char.utf8Size_pos c
    omega

/-- Accumulation-loop bound: starting from an output of at most `size`
characters with `size ≤ cap` accumulated bytes, any successful run ends
with at most `cap` **characters** of output. -/
theorem accumulateOutput_length_le :
    ∀ (chunks : List (List Char)) (out : List Char) (size : Nat),
      out.length ≤ size → size ≤ maxOutputSize →
      ∀ o t, accumulateOutput chunks out size = .ok (o, t) →
        o.length ≤ maxOutputSize := by
  intro chunks
  induction chunks with
  | nil =>
    intro out size h1 h2 o t hacc
    simp [accumulateOutput] at hacc
  | cons c rest ih =>
    intro out size h1 h2 o t hacc
    by_cases hov : size + byteLen c > maxOutputSize
    · rw [accumulateOutput, if_pos hov] at hacc
      simp only [Except.ok.injEq, Prod.mk.injEq] at hacc
      obtain ⟨ho, _⟩ := hacc
      subst ho
      rw [List.length_append, List.length_take]
      omega
    · rw [accumulateOutput, if_neg hov] at hacc
      by_cases hd : c.contains '$' = true
      · rw [if_pos hd] at hacc
        simp only [Except.ok.injEq, Prod.mk.injEq] at hacc
        obtain ⟨ho, _⟩ := hacc
        subst ho
        rw [List.length_append]
        have := length_le_byteLen c
        omega
      · rw [if_neg hd] at hacc
        exact ih (out ++ c) (size + byteLen c)
          (by rw [List.length_append]; have := length_le_byteLen c; omega)
          (by omega) o t hacc

/-- **C3, amended.**  The cap is enforced on the **character** count of
the accumulated output (never more than 50000 characters); the byte
count can exceed 50000 when a multibyte character survives the final
slice, because the code budgets `remaining` in bytes but slices
`chunk[:remaining]` in characters (see the counterexample).  Once the cap
trips, accumulation stops — the result no longer depends on the rest of
the stream and the truncated flag is set — and a truncated result always
carries the trailing truncation marker. -/
theorem c3_amended :
    (∀ (chunks : List (List Char)) (o : List Char) (t : Bool),
        accumulateOutput chunks [] 0 = .ok (o, t) → o.length ≤ maxOutputSize) ∧
    (∀ (c : List Char) (rest : List (List Char)) (out : List Char) (size : Nat),
        size + byteLen c > maxOutputSize →
        accumulateOutput (c :: rest) out size =
          .ok (out ++ c.take (maxOutputSize - size), true)) ∧
    (∀ (command : String) (out : List Char),
        ∃ r, buildResult command out true = r ++ truncMarker) := by
  refine ⟨?_, ?_, ?_⟩
  · intro chunks o t hacc
    exact accumulateOutput_length_le chunks [] 0 (by simp) (by simp [maxOutputSize]) o t hacc
  · intro c rest out size hov
    rw [accumulateOutput, if_pos hov]
  · intro command out
    exact ⟨_, rfl⟩

/-- Witness for `c3_amended`: a small prompt-terminated stream stays
within the cap, and an overflowing chunk stops accumulation. -/
theorem c3_witness :
    (['a', '$'] : List Char).length ≤ maxOutputSize ∧
      accumulateOutput [['b', 'b']] [] 49999 =
        .ok ([] ++ List.take (maxOutputSize - 49999) ['b', 'b'], true) :=
  ⟨c3_amended.1 [['a', '$']] ['a', '$'] false (by decide),
    c3_amended.2.1 ['b', 'b'] [] [] 49999 (by decide)⟩

/-- The per-client connection handles that `ArthasClient._disconnect`
(arthas.py lines 335-381) tears down: `arthas_channel`, `telnet`,
`arthas_process`, `ssh` are `None` (false) or a live handle (true), plus
`attached_pid`.  (`hasattr` guards are always satisfied once the
attribute has been set, even to `None`, so they add nothing beyond the
truthiness tests.) -/
structure ClientHandles where
  arthas_channel : Bool
  telnet : Bool
  arthas_process : Bool
  ssh : Bool
  attached_pid : Option Nat
  deriving Repr, DecidableEq

/-- Which teardown side effects fail by raising (all such exceptions are
caught by the bare `except:`/`except Exception` handlers of
`_disconnect`; the flags only influence which later operations of the
same `try` block are skipped, never the final state). -/
structure TeardownEnv where
  channel_send_fails : Bool
  telnet_write_fails : Bool
  process_stop_fails : Bool
  ssh_close_fails : Bool
  deriving Repr, DecidableEq

/-- The externally visible teardown operations of `_disconnect`. -/
inductive TeardownOp where
  | channelSendQuit
  | channelClose
  | telnetWriteQuit
  | telnetClose
  | processStop
  | sshShutdown
  deriving Repr, DecidableEq

/-- Lines 337-347: if `arthas_channel` is set, try to send `quit` and
close it (a raise skips the close and is swallowed); the `finally` always
clears `arthas_channel` and `attached_pid`. -/
def channelBranch (env : TeardownEnv) (h : ClientHandles) :
    ClientHandles × List TeardownOp :=
  if h.arthas_channel then
    ({ h with arthas_channel := false, attached_pid := none },
      if env.channel_send_fails then [.channelSendQuit]
      else [.channelSendQuit, .channelClose])
  else (h, [])

/-- Lines 349-358: same shape for the `telnet` handle. -/
def telnetBranch (env : TeardownEnv) (h : ClientHandles) :
    ClientHandles × List TeardownOp :=
  if h.telnet then
    ({ h with telnet := false, attached_pid := none },
      if env.telnet_write_fails then [.telnetWriteQuit]
      else [.telnetWriteQuit, .telnetClose])
  else (h, [])

/-- Lines 361-372: if a local `arthas_process` is owned, terminate (and
on wait-timeout kill) it — failures swallowed — and the `finally` clears
the handle. -/
def processBranch (_env : TeardownEnv) (h : ClientHandles) :
    ClientHandles × List TeardownOp :=
  if h.arthas_process then
    ({ h with arthas_process := false }, [.processStop])
  else (h, [])

/-- Lines 374-381: close the SSH client, failures logged and swallowed,
`finally` clears the handle. -/
def sshBranch (_env : TeardownEnv) (h : ClientHandles) :
    ClientHandles × List TeardownOp :=
  if h.ssh then
    ({ h with ssh := false }, [.sshShutdown])
  else (h, [])

/-- `ArthasClient._disconnect` (arthas.py lines 335-381): the four
teardown branches in source order.  Total — every raising operation sits
inside a `try` whose handler swallows the exception, so no exception
escapes and every `finally` clears its handle. -/
def disconnectClient (env : TeardownEnv) (h : ClientHandles) :
    ClientHandles × List TeardownOp :=
  let r1 := channelBranch env h
  let r2 := telnetBranch env r1.1
  let r3 := processBranch env r2.1
  let r4 := sshBranch env r3.1
  (r4.1, r1.2 ++ r2.2 ++ r3.2 ++ r4.2)

/-- After `_disconnect`, every handle is cleared. -/
theorem disconnectClient_clears (env : TeardownEnv) (h : ClientHandles) :
    (disconnectClient env h).1.arthas_channel = false ∧
      (disconnectClient env h).1.telnet = false ∧
      (disconnectClient env h).1.arthas_process = false ∧
      (disconnectClient env h).1.ssh = false := by
  rcases h with ⟨c, t, p, s, pid⟩
  cases c <;> cases t <;> cases p <;> cases s <;>
    simp [disconnectClient, channelBranch, telnetBranch, processBranch, sshBranch]

/-- On a client whose handles are all cleared, `_disconnect` performs no
operation and changes nothing. -/
theorem disconnectClient_noop (env : TeardownEnv) (h : ClientHandles)
    (hc : h.arthas_channel = false) (ht : h.telnet = false)
    (hp : h.arthas_process = false) (hs : h.ssh = false) :
    disconnectClient env h = (h, []) := by
  rcases h with ⟨c, t, p, s, pid⟩
  simp only at hc ht hp hs
  subst hc ht hp hs
  simp [disconnectClient, channelBranch, telnetBranch, processBranch, sshBranch]

/-- `_disconnect` applied to client `i` of a family of clients. -/
def disconnectAt (env : TeardownEnv) (m : Nat → ClientHandles) (i : Nat) :
    Nat → ClientHandles :=
  fun k => if k = i then (disconnectClient env (m k)).1 else m k

/-- **C8.**  `_disconnect` never raises (it is a total function of the
modelled state: every raising teardown operation is wrapped in an
exception-swallowing handler, arthas.py lines 338-381); the first call
clears the channel/telnet/process/ssh handles to `None`; a second call —
under any failure environment — performs no teardown operation and leaves
the state unchanged; and a call on one session leaves every other
session's state untouched. -/
theorem c8_disconnect_idempotent :
    (∀ (env : TeardownEnv) (h : ClientHandles),
        (disconnectClient env h).1.arthas_channel = false ∧
          (disconnectClient env h).1.telnet = false ∧
          (disconnectClient env h).1.arthas_process = false ∧
          (disconnectClient env h).1.ssh = false) ∧
    (∀ (env env' : TeardownEnv) (h : ClientHandles),
        disconnectClient env' (disconnectClient env h).1 =
          ((disconnectClient env h).1, [])) ∧
    (∀ (env : TeardownEnv) (m : Nat → ClientHandles) (i j : Nat), j ≠ i →
        disconnectAt env m i j = m j) := by
  refine ⟨disconnectClient_clears, ?_, ?_⟩
  · intro env env' h
    obtain ⟨hc, ht, hp, hs⟩ := disconnectClient_clears env h
    exact disconnectClient_noop env' _ hc ht hp hs
  · intro env m i j hij
    unfold disconnectAt
    rw [if_neg hij]

/-- Witness for `c8_disconnect_idempotent`: disconnecting client 0 of a
two-client family leaves client 1 untouched. -/
theorem c8_witness :
    disconnectAt { channel_send_fails := false, telnet_write_fails := false,
                   process_stop_fails := false, ssh_close_fails := false }
        (fun _ => { arthas_channel := true, telnet := false,
                    arthas_process := true, ssh := false, attached_pid := some 7 })
        0 1 =
      { arthas_channel := true, telnet := false, arthas_process := true,
        ssh := false, attached_pid := some 7 } :=
  c8_disconnect_idempotent.2.2 _ _ 0 1 (by decide)

/-- The process-global state behind `ArthasConnectionPool`: the class
attribute `_instance`, whether the instance has run the guarded
`__init__` body (`_initialized`), how many times that body ran, how many
health-check threads were started, and a fresh-id counter for new
instances.  Construction calls are modelled as a sequence: `__new__` is
serialized by the class lock (connection_pool.py line 35), and the
claim quantifies over repeated constructions, not interleaved ones. -/
structure SingletonState where
  inst : Option Nat
  init_done : Bool
  init_runs : Nat
  health_threads : Nat
  next_id : Nat
  deriving Repr, DecidableEq

/-- One evaluation of `ArthasConnectionPool(...)`: `__new__` under the
class lock returns the stored instance or stores a fresh one (lines
34-38); Python then invokes `__init__` on that instance, whose body is
guarded by `if not hasattr(self, '_initialized')` (line 58) — when the
guard passes it starts exactly one health-check thread (lines 75-77) and
sets `_initialized = True` (line 79).  Returns the new global state and
the returned instance. -/
def newStep (s : SingletonState) : SingletonState × Nat :=
  match s.inst with
  | some i => (s, i)
  | none => ({ s with inst := some s.next_id, next_id := s.next_id + 1 }, s.next_id)

/-- The `__init__` body with its `hasattr(self, '_initialized')` guard
(connection_pool.py lines 58-80). -/
def initStep (s : SingletonState) : SingletonState :=
  if s.init_done then s
  else
    { s with
      init_done := true
      init_runs := s.init_runs + 1
      health_threads := s.health_threads + 1 }

/-- One full construction: `__new__` then `__init__`. -/
def constructPool (s : SingletonState) : SingletonState × Nat :=
  let r := newStep s
  (initStep r.1, r.2)

/-- The state of a process in which the pool class has never been
constructed. -/
def freshSingleton : SingletonState :=
  { inst := none, init_done := false, init_runs := 0, health_threads := 0, next_id := 0 }

/-- `n` successive constructions, collecting the returned instances. -/
def constructMany : Nat → SingletonState → SingletonState × List Nat
  | 0, s => (s, [])
  | n + 1, s =>
    let r := constructPool s
    let rest := constructMany n r.1
    (rest.1, r.2 :: rest.2)

/-- The state after the first construction. -/
def settledSingleton : SingletonState :=
  { inst := some 0, init_done := true, init_runs := 1, health_threads := 1, next_id := 1 }

/-- Once settled, construction is a no-op returning instance 0. -/
theorem constructPool_settled : constructPool settledSingleton = (settledSingleton, 0) := by
  decide

/-- Once settled, any number of constructions returns instance 0 every
time without changing the state. -/
theorem constructMany_settled (n : Nat) :
    constructMany n settledSingleton = (settledSingleton, List.replicate n 0) := by
  induction n with
  | zero => rfl
  | succ n ih =>
    show (let r := constructPool settledSingleton
          let rest := constructMany n r.1
          (rest.1, r.2 :: rest.2)) = _
    rw [constructPool_settled]
    simp only []
    rw [ih]
    rfl

/-- **C9.**  Constructing `ArthasConnectionPool` any number of times
always yields the same instance (instance 0, created by the first
construction); the guarded `__init__` body runs exactly once (zero times
only when there is no construction at all), so at most one background
health-check thread ever exists. -/
theorem c9_singleton_construction (n : Nat) :
    (constructMany n freshSingleton).2 = List.replicate n 0 ∧
      (constructMany n freshSingleton).1.init_runs = min n 1 ∧
      (constructMany n freshSingleton).1.health_threads = min n 1 := by
  cases n with
  | zero => refine ⟨rfl, rfl, rfl⟩
  | succ n =>
    have hfirst : constructPool freshSingleton = (settledSingleton, 0) := by decide
    show (let r := constructPool freshSingleton
          let rest := constructMany n r.1
          ((rest.1, r.2 :: rest.2) : SingletonState × List Nat).2 = _ ∧
          (rest.1, r.2 :: rest.2).1.init_runs = _ ∧
          (rest.1, r.2 :: rest.2).1.health_threads = _)
    rw [hfirst]
    simp only []
    rw [constructMany_settled n]
    refine ⟨rfl, ?_, ?_⟩ <;> simp [settledSingleton]

/-- Atomic operations of a pool code path, for stating lock discipline:
acquiring/releasing the pool-wide `self._lock`, blocking channel I/O, and
pool-state reads/writes. -/
inductive PoolOp where
  | lockAcq
  | lockRel
  | channelCall (desc : String)
  | stateOp (desc : String)
  deriving Repr, DecidableEq

/-- The session-creation path of `get_connection` (connection_pool.py
lines 125-137): one `with self._lock` block spanning the capacity check,
the call to `_create_connection` — which constructs an `ArthasClient`
and runs the full blocking attach handshake (`_attach_to_process`,
arthas.py lines 163-314, up to 30s of channel polling) — and the
registration of the new connection. -/
def getConnectionCreatePath : List PoolOp :=
  [.lockAcq,
   .stateOp "read len of connections for pid",
   .channelCall "create_connection: attach handshake",
   .stateOp "append connection and mark busy",
   .lockRel]

/-- One probe of the health-check sweep `_check_all_connections`
(connection_pool.py lines 238-256): the `with self._lock` block spans
the whole sweep, including
`conn.client._execute_command(conn.pid, "version")` (line 249), a
blocking no-op command on the session's channel. -/
def healthCheckProbePath : List PoolOp :=
  [.lockAcq,
   .stateOp "iterate connections and read is_busy",
   .stateOp "validity check",
   .channelCall "execute no-op command version",
   .stateOp "update health and failed counters",
   .lockRel]

/-- `_remove_connection` (connection_pool.py lines 215-225): its
`with self._lock` block spans both the list removal and the blocking
`conn.client._disconnect()` teardown (quit + 1s sleeps + close). -/
def removeConnectionPath : List PoolOp :=
  [.lockAcq,
   .stateOp "remove connection from list",
   .channelCall "client disconnect teardown",
   .lockRel]

/-- The idle-reuse path of `get_connection` (connection_pool.py lines
109-118, valid-connection case): queue pop, validity check and
busy/timestamp update all run **without** taking the pool lock. -/
def acquireReusePath : List PoolOp :=
  [.stateOp "queue get_nowait",
   .stateOp "validity check",
   .stateOp "mark busy and stamp last_used_at"]

/-- Scan of a path with a lock-depth counter: does some blocking channel
I/O occur at positive lock depth? -/
def ioUnderLockAux : List PoolOp → Nat → Bool
  | [], _ => false
  | .lockAcq :: r, d => ioUnderLockAux r (d + 1)
  | .lockRel :: r, d => ioUnderLockAux r (d - 1)
  | .channelCall _ :: r, d => decide (0 < d) || ioUnderLockAux r d
  | .stateOp _ :: r, d => ioUnderLockAux r d

/-- Whether a code path performs blocking channel I/O while holding the
pool lock. -/
def ioUnderLock (l : List PoolOp) : Bool := ioUnderLockAux l 0

/-- Whether a code path touches the pool lock at all. -/
def usesPoolLock (l : List PoolOp) : Bool :=
  l.any (fun op => op = .lockAcq || op = .lockRel)

/-- **C6, counterexample.**  In the session-creation path of
`get_connection`, the blocking attach handshake of
`_create_connection` is executed inside the `with self._lock` block
(connection_pool.py lines 125-137) — blocking channel I/O is performed
while the pool-wide lock is held, contradicting the claim. -/
theorem c6_counterexample : ioUnderLock getConnectionCreatePath = true := by
  decide

/-- **C6, amended.**  The pool-wide lock **is** held across blocking
channel I/O: session creation (attach handshake) inside
`get_connection`, the health-check's no-op `version` command, and the
`_disconnect` teardown inside `_remove_connection` all run under the
lock; only the idle-reuse path of `get_connection` (queue pop, validity
check, busy/timestamp update) runs without touching the lock. -/
theorem c6_amended :
    ioUnderLock healthCheckProbePath = true ∧
      ioUnderLock removeConnectionPath = true ∧
      ioUnderLock acquireReusePath = false ∧
      usesPoolLock acquireReusePath = false := by
  refine ⟨by decide, by decide, by decide, by decide⟩

/-- The ways one `_create_connection` attempt can fail (the exceptions of
`_attach_to_process`, arthas.py lines 163-314: permission refusal,
missing target process, or any other attach failure). -/
inductive AttachErr where
  | permissionDenied
  | processNotFound
  | otherAttach (msg : String)
  deriving Repr, DecidableEq

/-- What `get_connection` can raise to its caller. -/
inductive AcquireErr where
  | timeoutError
  | attach (e : AttachErr)
  deriving Repr, DecidableEq

/-- The polling loop of `get_connection` (connection_pool.py lines
106-151) in the scenario claim C4 addresses: the available queue for the
pid stays empty and the key stays below `max_size` (every creation
attempt fails, so nothing is ever registered).  Each list element is the
outcome of the `_create_connection` call of one loop iteration; the list
ends when `time.time() - start_time` reaches `connection_timeout` (each
iteration costs at least the 0.1s sleep of line 147, plus 0.5s after a
failed creation, so the window admits finitely many iterations).  A
raised creation error is caught by `except Exception` at line 135,
logged, and swallowed; when the window closes the loop exits and line
151 raises `TimeoutError`. -/
def getConnectionLoop : List (Except AttachErr Unit) → Except AcquireErr Unit
  | [] => .error .timeoutError
  | .ok _ :: _ => .ok ()
  | .error _ :: rest => getConnectionLoop rest

/-- **C4, counterexample.**  Every in-window creation attempt fails with
the same underlying reason (permission denied), yet `get_connection`
raises the generic `TimeoutError`, not the attach error: the `except`
arm at line 135 swallows the creation error unconditionally and the only
`raise` reaching the caller is line 151. -/
theorem c4_counterexample :
    getConnectionLoop
        [.error .permissionDenied, .error .permissionDenied, .error .permissionDenied] =
      .error .timeoutError := by
  decide

/-- **C4, amended.**  `get_connection` raises `TimeoutError` when no
session is obtained within `connection_timeout` — and that is the *only*
failure it ever raises: creation errors are logged and swallowed
(followed by a 0.5s delay and a retry), so even when every in-window
attempt failed for the same underlying reason, the caller receives the
generic timeout, never the underlying attach error. -/
theorem c4_amended (outcomes : List (Except AttachErr Unit))
    (h : ∀ o ∈ outcomes, ∃ e, o = .error e) :
    getConnectionLoop outcomes = .error .timeoutError := by
  induction outcomes with
  | nil => rfl
  | cons o rest ih =>
    obtain ⟨e, he⟩ := h o (by simp)
    subst he
    exact ih (fun o ho => h o (by simp [ho]))

/-- Witness for `c4_amended` at a one-iteration window whose single
creation attempt fails with a missing target process. -/
theorem c4_witness :
    getConnectionLoop [.error .processNotFound] = .error .timeoutError :=
  c4_amended [.error .processNotFound]
    (fun o ho => ⟨.processNotFound, by simpa using ho⟩)

/-- Shared state of `ArthasConnectionPool` (connection_pool.py lines
66-67): `_connections : Dict[int, List[PooledConnection]]` and
`_available : Dict[int, Queue[PooledConnection]]` (a queue is its list of
entries, front first), both keyed by pid and `none` when the key is
absent.  Connection objects are identified by the ids at which `sess`
stores their attributes.  `held` is model bookkeeping: the ids currently
checked out to callers — the facade `_execute_command` (arthas.py lines
399-417) acquires, uses, and returns each connection exactly once in a
`finally`, so `return_connection` is only ever called on a held id.
`next_id` supplies fresh ids for newly created connections. -/
structure PoolState where
  conns : Nat → Option (List Nat)
  avail : Nat → Option (List Nat)
  sess : Nat → PooledConnection
  held : List Nat
  next_id : Nat

/-- The pool operations whose interleavings claim C1 quantifies over.
Each action is one atomic region of connection_pool.py: regions holding
`self._lock` are serialized by it, and the lock-free reuse path of
`get_connection` only touches the popped connection (owned after
`get_nowait`) and the internally synchronized queue. -/
inductive PoolAction where
  /-- `get_connection` entry (lines 100-104): under the lock, create the
  `_connections` list and `_available` queue for a new pid. -/
  | initKey (pid : Nat)
  /-- `get_connection` reuse path (lines 109-122), taken when the queue
  is non-empty: pop the front connection; if valid, mark busy, stamp
  `last_used_at` and hand it to the caller; if invalid, `_remove_connection`
  erases it from `_connections[conn.pid]` (lines 215-225; the lock is free
  here, so the nested `with self._lock` succeeds) — it stays popped. -/
  | acquireReuse (pid : Nat) (now : Int)
  /-- `get_connection` creation path (lines 125-137), success case: under
  the lock, if `len(_connections[pid]) < max_size`, attach a new client,
  append the new connection, mark it busy and hand it to the caller.
  When the pool is full only a log line is emitted (no state change). -/
  | acquireCreate (pid : Nat) (now : Int)
  /-- `return_connection` (lines 153-163), on a held connection.  Valid:
  clear busy, stamp `last_used_at`, `put` into `_available[conn.pid]` —
  or, if that key is gone (post-shutdown), raise `KeyError` to the caller
  *after* the busy/timestamp mutations.  Invalid: `_remove_connection`
  (line 157) re-enters `with self._lock` (line 217) while
  `return_connection` already holds that non-reentrant `threading.Lock`
  (line 155), so the caller blocks forever **before any mutation**: the
  pool state does not change. -/
  | returnConn (c : Nat) (now : Int)
  /-- One probe of `_check_all_connections` (lines 238-256) on a tracked,
  non-busy connection.  The sweep holds the pool lock for its whole body;
  the invalid branch calls `_remove_connection` (line 245 → line 217) and
  the valid branch calls `conn.client._execute_command` (line 249), which
  re-enters `get_connection` and its `with self._lock` (arthas.py line
  404 → connection_pool.py line 100).  Either way the sweep re-acquires
  the non-reentrant lock it already holds and blocks forever before
  reaching any mutation (the counter updates of lines 250-254 sit after
  the blocking call), so the pool state does not change. -/
  | healthProbe (c : Nat) (pid : Nat) (now : Int)
  /-- `shutdown` (lines 258-274): disconnect every client and
  `clear()` both dicts — every key becomes absent.  Held connections
  remain with their callers. -/
  | shutdownPool

/-- One atomic pool transition.  `none` means the action is not enabled
in this state (its code path is not taken). -/
def poolStep (cfg : PoolConfig) (a : PoolAction) (s : PoolState) : Option PoolState :=
  match a with
  | .initKey pid =>
    match s.conns pid with
    | some _ => some s
    | none =>
      some { s with
             conns := fun p => if p = pid then some [] else s.conns p
             avail := fun p => if p = pid then some [] else s.avail p }
  | .acquireReuse pid now =>
    match s.avail pid with
    | some (c :: q) =>
      let s1 : PoolState :=
        { s with avail := fun p => if p = pid then some q else s.avail p }
      if isConnectionValid cfg now (s1.sess c) then
        some { s1 with
               sess := fun i => if i = c then
                   { s1.sess c with is_busy := true, last_used_at := now }
                 else s1.sess i
               held := c :: s1.held }
      else
        some { s1 with
               conns := fun p => if p = (s1.sess c).pid then
                   (s1.conns p).map (fun l => l.erase c)
                 else s1.conns p }
    | _ => none
  | .acquireCreate pid now =>
    match s.conns pid with
    | none => none
    | some l =>
      if l.length < cfg.max_size then
        some { s with
               conns := fun p => if p = pid then some (l ++ [s.next_id]) else s.conns p
               sess := fun i => if i = s.next_id then
                   { pid := pid, created_at := now, last_used_at := now,
                     is_busy := true, health_check_count := 0, failed_count := 0 }
                 else s.sess i
               held := s.next_id :: s.held
               next_id := s.next_id + 1 }
      else some s
  | .returnConn c now =>
    if c ∈ s.held then
      if isConnectionValid cfg now (s.sess c) then
        let s1 : PoolState :=
          { s with
            sess := fun i => if i = c then
                { s.sess c with is_busy := false, last_used_at := now }
              else s.sess i
            held := s.held.erase c }
        match s1.avail (s.sess c).pid with
        | some q =>
          some { s1 with
                 avail := fun p => if p = (s.sess c).pid then some (q ++ [c])
                   else s1.avail p }
        | none => some s1
      else some s
    else none
  | .healthProbe c pid _now =>
    match s.conns pid with
    | some l => if c ∈ l ∧ (s.sess c).is_busy = false then some s else none
    | none => none
  | .shutdownPool =>
    some { s with conns := fun _ => none, avail := fun _ => none }

/-- The pool state right after `__init__`: both dicts empty, nothing
held. -/
def initialPoolState : PoolState :=
  { conns := fun _ => none, avail := fun _ => none,
    sess := fun _ => { pid := 0, created_at := 0, last_used_at := 0 },
    held := [], next_id := 0 }

/-- Run a sequence of pool actions. -/
def runPool (cfg : PoolConfig) : List PoolAction → PoolState → Option PoolState
  | [], s => some s
  | a :: as, s =>
    match poolStep cfg a s with
    | none => none
    | some s' => runPool cfg as s'

/-- A pool state reachable from the initial state under some interleaving
of the pool operations. -/
def PoolReachable (cfg : PoolConfig) (s : PoolState) : Prop :=
  ∃ acts, runPool cfg acts initialPoolState = some s

/-- The inductive invariant of the pool state machine.  The two
claim-relevant conjuncts are `bound` and `availNotBusy`; the rest are
auxiliary facts needed to push them through the transitions. -/
structure GoodState (cfg : PoolConfig) (s : PoolState) : Prop where
  bound : ∀ pid l, s.conns pid = some l → l.length ≤ cfg.max_size
  availNotBusy : ∀ pid q, s.avail pid = some q → ∀ c ∈ q, (s.sess c).is_busy = false
  availNodup : ∀ pid q, s.avail pid = some q → q.Nodup
  availPid : ∀ pid q, s.avail pid = some q → ∀ c ∈ q, (s.sess c).pid = pid
  availHeld : ∀ pid q, s.avail pid = some q → ∀ c ∈ q, c ∉ s.held
  heldBusy : ∀ c ∈ s.held, (s.sess c).is_busy = true
  heldNodup : s.held.Nodup
  availFresh : ∀ pid q, s.avail pid = some q → ∀ c ∈ q, c < s.next_id
  heldFresh : ∀ c ∈ s.held, c < s.next_id

/-- The initial pool state satisfies the invariant. -/
theorem goodState_initial (cfg : PoolConfig) : GoodState cfg initialPoolState := by
  refine { bound := ?_, availNotBusy := ?_, availNodup := ?_, availPid := ?_,
           availHeld := ?_, heldBusy := ?_, heldNodup := ?_, availFresh := ?_,
           heldFresh := ?_ } <;>
    simp [initialPoolState]

/-- `initKey` preserves the invariant. -/
theorem good_initKey (cfg : PoolConfig) (pid : Nat) (s s' : PoolState)
    (hg : GoodState cfg s) (hstep : poolStep cfg (.initKey pid) s = some s') :
    GoodState cfg s' := by
  simp only [poolStep] at hstep
  split at hstep
  · injection hstep with h
    subst h
    exact hg
  · injection hstep with h
    subst h
    refine { bound := ?_, availNotBusy := ?_, availNodup := ?_, availPid := ?_,
             availHeld := ?_, heldBusy := hg.heldBusy, heldNodup := hg.heldNodup,
             availFresh := ?_, heldFresh := hg.heldFresh }
    · intro p l hp
      simp only at hp
      by_cases hpp : p = pid
      · rw [if_pos hpp] at hp
        injection hp with h2
        subst h2
        exact Nat.zero_le _
      · rw [if_neg hpp] at hp
        exact hg.bound p l hp
    · intro p q hq c hcq
      simp only at hq
      by_cases hpp : p = pid
      · rw [if_pos hpp] at hq
        injection hq with h2
        subst h2
        simp at hcq
      · rw [if_neg hpp] at hq
        exact hg.availNotBusy p q hq c hcq
    · intro p q hq
      simp only at hq
      by_cases hpp : p = pid
      · rw [if_pos hpp] at hq
        injection hq with h2
        subst h2
        exact List.nodup_nil
      · rw [if_neg hpp] at hq
        exact hg.availNodup p q hq
    · intro p q hq c hcq
      simp only at hq
      by_cases hpp : p = pid
      · rw [if_pos hpp] at hq
        injection hq with h2
        subst h2
        simp at hcq
      · rw [if_neg hpp] at hq
        exact hg.availPid p q hq c hcq
    · intro p q hq c hcq
      simp only at hq
      by_cases hpp : p = pid
      · rw [if_pos hpp] at hq
        injection hq with h2
        subst h2
        simp at hcq
      · rw [if_neg hpp] at hq
        exact hg.availHeld p q hq c hcq
    · intro p q hq c hcq
      simp only at hq
      by_cases hpp : p = pid
      · rw [if_pos hpp] at hq
        injection hq with h2
        subst h2
        simp at hcq
      · rw [if_neg hpp] at hq
        exact hg.availFresh p q hq c hcq

/-- `shutdown` preserves the invariant. -/
theorem good_shutdown (cfg : PoolConfig) (s s' : PoolState)
    (hg : GoodState cfg s) (hstep : poolStep cfg .shutdownPool s = some s') :
    GoodState cfg s' := by
  simp only [poolStep] at hstep
  injection hstep with h
  subst h
  refine { bound := ?_, availNotBusy := ?_, availNodup := ?_, availPid := ?_,
           availHeld := ?_, heldBusy := hg.heldBusy, heldNodup := hg.heldNodup,
           availFresh := ?_, heldFresh := hg.heldFresh } <;>
    intro p l hp <;> simp at hp

/-- A health-check probe preserves the invariant (it cannot mutate the
state: both its branches self-deadlock on the non-reentrant pool lock
before reaching a mutation). -/
theorem good_healthProbe (cfg : PoolConfig) (c pid : Nat) (now : Int) (s s' : PoolState)
    (hg : GoodState cfg s) (hstep : poolStep cfg (.healthProbe c pid now) s = some s') :
    GoodState cfg s' := by
  simp only [poolStep] at hstep
  split at hstep
  · split at hstep
    · injection hstep with h
      subst h
      exact hg
    · exact absurd hstep (by simp)
  · exact absurd hstep (by simp)

/-- The creation path of `get_connection` preserves the invariant. -/
theorem good_acquireCreate (cfg : PoolConfig) (pid : Nat) (now : Int) (s s' : PoolState)
    (hg : GoodState cfg s) (hstep : poolStep cfg (.acquireCreate pid now) s = some s') :
    GoodState cfg s' := by
  simp only [poolStep] at hstep
  split at hstep
  · exact absurd hstep (by simp)
  · rename_i l heq
    split at hstep
    · rename_i hlen
      injection hstep with h
      subst h
      refine { bound := ?_, availNotBusy := ?_, availNodup := ?_, availPid := ?_,
               availHeld := ?_, heldBusy := ?_, heldNodup := ?_,
               availFresh := ?_, heldFresh := ?_ }
      · intro p l' hp
        simp only at hp
        by_cases hpp : p = pid
        · rw [if_pos hpp] at hp
          injection hp with h2
          subst h2
          rw [List.length_append]
          simp only [List.length_singleton]
          omega
        · rw [if_neg hpp] at hp
          exact hg.bound p l' hp
      · intro p q hq c hcq
        simp only at hq ⊢
        have hlt : c < s.next_id := hg.availFresh p q hq c hcq
        rw [if_neg (by omega)]
        exact hg.availNotBusy p q hq c hcq
      · intro p q hq
        exact hg.availNodup p q hq
      · intro p q hq c hcq
        simp only at hq ⊢
        have hlt : c < s.next_id := hg.availFresh p q hq c hcq
        rw [if_neg (by omega)]
        exact hg.availPid p q hq c hcq
      · intro p q hq c hcq
        simp only at hq ⊢
        have hlt : c < s.next_id := hg.availFresh p q hq c hcq
        intro hmem
        rcases List.mem_cons.mp hmem with h1 | h1
        · omega
        · exact hg.availHeld p q hq c hcq h1
      · intro c hc
        simp only at hc ⊢
        rcases List.mem_cons.mp hc with h1 | h1
        · rw [if_pos h1]
        · have hlt : c < s.next_id := hg.heldFresh c h1
          rw [if_neg (by omega)]
          exact hg.heldBusy c h1
      · simp only
        rw [List.nodup_cons]
        refine ⟨fun hmem => ?_, hg.heldNodup⟩
        have := hg.heldFresh _ hmem
        omega
      · intro p q hq c hcq
        simp only at hq ⊢
        have := hg.availFresh p q hq c hcq
        omega
      · intro c hc
        simp only at hc ⊢
        rcases List.mem_cons.mp hc with h1 | h1
        · omega
        · have := hg.heldFresh c h1
          omega
    · injection hstep with h
      subst h
      exact hg

/-- The reuse path of `get_connection` preserves the invariant. -/
theorem good_acquireReuse (cfg : PoolConfig) (pid : Nat) (now : Int) (s s' : PoolState)
    (hg : GoodState cfg s) (hstep : poolStep cfg (.acquireReuse pid now) s = some s') :
    GoodState cfg s' := by
  simp only [poolStep] at hstep
  split at hstep
  · rename_i c q heq
    have hnd : (c :: q).Nodup := hg.availNodup pid _ heq
    have hcq : c ∉ q := (List.nodup_cons.mp hnd).1
    have hqnd : q.Nodup := (List.nodup_cons.mp hnd).2
    have hcpid : (s.sess c).pid = pid := hg.availPid pid _ heq c (by simp)
    have hcheld : c ∉ s.held := hg.availHeld pid _ heq c (by simp)
    have hcfresh : c < s.next_id := hg.availFresh pid _ heq c (by simp)
    have hother : ∀ p q', p ≠ pid → s.avail p = some q' → c ∉ q' := by
      intro p q' hp hq' hmem
      have := hg.availPid p q' hq' c hmem
      rw [hcpid] at this
      exact hp this.symm
    split at hstep
    · -- valid: mark busy, hand to caller
      injection hstep with h
      subst h
      refine { bound := hg.bound, availNotBusy := ?_, availNodup := ?_, availPid := ?_,
               availHeld := ?_, heldBusy := ?_, heldNodup := ?_,
               availFresh := ?_, heldFresh := ?_ }
      · intro p q' hq' d hd
        simp only at hq' ⊢
        by_cases hpp : p = pid
        · rw [if_pos hpp] at hq'
          injection hq' with h2
          subst h2
          have hdc : d ≠ c := fun hdc => hcq (hdc ▸ hd)
          rw [if_neg hdc]
          exact hg.availNotBusy pid _ heq d (by simp [hd])
        · rw [if_neg hpp] at hq'
          have hdc : d ≠ c := fun hdc => hother p q' hpp hq' (hdc ▸ hd)
          rw [if_neg hdc]
          exact hg.availNotBusy p q' hq' d hd
      · intro p q' hq'
        simp only at hq'
        by_cases hpp : p = pid
        · rw [if_pos hpp] at hq'
          injection hq' with h2
          subst h2
          exact hqnd
        · rw [if_neg hpp] at hq'
          exact hg.availNodup p q' hq'
      · intro p q' hq' d hd
        simp only at hq' ⊢
        by_cases hpp : p = pid
        · rw [if_pos hpp] at hq'
          injection hq' with h2
          subst h2
          have hdc : d ≠ c := fun hdc => hcq (hdc ▸ hd)
          rw [if_neg hdc, hpp]
          exact hg.availPid pid _ heq d (by simp [hd])
        · rw [if_neg hpp] at hq'
          have hdc : d ≠ c := fun hdc => hother p q' hpp hq' (hdc ▸ hd)
          rw [if_neg hdc]
          exact hg.availPid p q' hq' d hd
      · intro p q' hq' d hd
        simp only at hq' ⊢
        by_cases hpp : p = pid
        · rw [if_pos hpp] at hq'
          injection hq' with h2
          subst h2
          have hdc : d ≠ c := fun hdc => hcq (hdc ▸ hd)
          intro hmem
          rcases List.mem_cons.mp hmem with h1 | h1
          · exact hdc h1
          · exact hg.availHeld pid _ heq d (by simp [hd]) h1
        · rw [if_neg hpp] at hq'
          have hdc : d ≠ c := fun hdc => hother p q' hpp hq' (hdc ▸ hd)
          intro hmem
          rcases List.mem_cons.mp hmem with h1 | h1
          · exact hdc h1
          · exact hg.availHeld p q' hq' d hd h1
      · intro d hd
        simp only at hd ⊢
        rcases List.mem_cons.mp hd with h1 | h1
        · rw [if_pos h1]
        · have hdc : d ≠ c := fun hdc => hcheld (hdc ▸ h1)
          rw [if_neg hdc]
          exact hg.heldBusy d h1
      · simp only
        rw [List.nodup_cons]
        exact ⟨hcheld, hg.heldNodup⟩
      · intro p q' hq' d hd
        simp only at hq'
        by_cases hpp : p = pid
        · rw [if_pos hpp] at hq'
          injection hq' with h2
          subst h2
          exact hg.availFresh pid _ heq d (by simp [hd])
        · rw [if_neg hpp] at hq'
          exact hg.availFresh p q' hq' d hd
      · intro d hd
        simp only at hd
        rcases List.mem_cons.mp hd with h1 | h1
        · exact h1 ▸ hcfresh
        · exact hg.heldFresh d h1
    · -- invalid: conn is dropped, erased from the tracking list
      injection hstep with h
      subst h
      refine { bound := ?_, availNotBusy := ?_, availNodup := ?_, availPid := ?_,
               availHeld := ?_, heldBusy := hg.heldBusy, heldNodup := hg.heldNodup,
               availFresh := ?_, heldFresh := hg.heldFresh }
      · intro p l hp
        simp only at hp
        by_cases hpp : p = (s.sess c).pid
        · rw [if_pos hpp] at hp
          cases hcp : s.conns p with
          | none => rw [hcp] at hp; simp at hp
          | some l0 =>
            rw [hcp] at hp
            rw [Option.map_some'] at hp
            injection hp with h2
            subst h2
            exact le_trans ((List.erase_sublist c l0).length_le) (hg.bound p l0 hcp)
        · rw [if_neg hpp] at hp
          exact hg.bound p l hp
      · intro p q' hq' d hd
        simp only at hq'
        by_cases hpp : p = pid
        · rw [if_pos hpp] at hq'
          injection hq' with h2
          subst h2
          exact hg.availNotBusy pid _ heq d (by simp [hd])
        · rw [if_neg hpp] at hq'
          exact hg.availNotBusy p q' hq' d hd
      · intro p q' hq'
        simp only at hq'
        by_cases hpp : p = pid
        · rw [if_pos hpp] at hq'
          injection hq' with h2
          subst h2
          exact hqnd
        · rw [if_neg hpp] at hq'
          exact hg.availNodup p q' hq'
      · intro p q' hq' d hd
        simp only at hq'
        show (s.sess d).pid = p
        by_cases hpp : p = pid
        · rw [if_pos hpp] at hq'
          injection hq' with h2
          subst h2
          rw [hpp]
          exact hg.availPid pid _ heq d (by simp [hd])
        · rw [if_neg hpp] at hq'
          exact hg.availPid p q' hq' d hd
      · intro p q' hq' d hd
        simp only at hq'
        by_cases hpp : p = pid
        · rw [if_pos hpp] at hq'
          injection hq' with h2
          subst h2
          exact hg.availHeld pid _ heq d (by simp [hd])
        · rw [if_neg hpp] at hq'
          exact hg.availHeld p q' hq' d hd
      · intro p q' hq' d hd
        simp only at hq'
        by_cases hpp : p = pid
        · rw [if_pos hpp] at hq'
          injection hq' with h2
          subst h2
          exact hg.availFresh pid _ heq d (by simp [hd])
        · rw [if_neg hpp] at hq'
          exact hg.availFresh p q' hq' d hd
  · exact absurd hstep (by simp)

/-- `return_connection` on a held connection preserves the invariant. -/
theorem good_returnConn (cfg : PoolConfig) (c : Nat) (now : Int) (s s' : PoolState)
    (hg : GoodState cfg s) (hstep : poolStep cfg (.returnConn c now) s = some s') :
    GoodState cfg s' := by
  simp only [poolStep] at hstep
  split at hstep
  · rename_i hheld
    have hnd := hg.heldNodup
    have hcfresh : c < s.next_id := hg.heldFresh c hheld
    have hcnotavail : ∀ p q', s.avail p = some q' → c ∉ q' := fun p q' hq' hmem =>
      hg.availHeld p q' hq' c hmem hheld
    split at hstep
    · -- valid: clear busy, stamp, and put back (or KeyError on a gone key)
      split at hstep
      · -- the available queue for the connection's pid exists
        rename_i q heq
        have heq' : s.avail (s.sess c).pid = some q := heq
        injection hstep with h
        subst h
        refine { bound := hg.bound, availNotBusy := ?_, availNodup := ?_,
                 availPid := ?_, availHeld := ?_, heldBusy := ?_, heldNodup := ?_,
                 availFresh := ?_, heldFresh := ?_ }
        · intro p q' hq' d hd
          simp only at hq' ⊢
          by_cases hpp : p = (s.sess c).pid
          · rw [if_pos hpp] at hq'
            injection hq' with h2
            subst h2
            rcases List.mem_append.mp hd with h1 | h1
            · have hdc : d ≠ c := fun h => (hcnotavail _ _ heq') (h ▸ h1)
              rw [if_neg hdc]
              exact hg.availNotBusy _ q heq' d h1
            · have hdc : d = c := by simpa using h1
              subst hdc
              rw [if_pos rfl]
          · rw [if_neg hpp] at hq'
            have hdc : d ≠ c := fun h => (hcnotavail p q' hq') (h ▸ hd)
            rw [if_neg hdc]
            exact hg.availNotBusy p q' hq' d hd
        · intro p q' hq'
          simp only at hq'
          by_cases hpp : p = (s.sess c).pid
          · rw [if_pos hpp] at hq'
            injection hq' with h2
            subst h2
            rw [List.nodup_append]
            refine ⟨hg.availNodup _ q heq', by simp, ?_⟩
            intro a ha hb
            have : a = c := by simpa using hb
            exact (hcnotavail _ _ heq') (this ▸ ha)
          · rw [if_neg hpp] at hq'
            exact hg.availNodup p q' hq'
        · intro p q' hq' d hd
          simp only at hq' ⊢
          by_cases hpp : p = (s.sess c).pid
          · rw [if_pos hpp] at hq'
            injection hq' with h2
            subst h2
            rcases List.mem_append.mp hd with h1 | h1
            · have hdc : d ≠ c := fun h => (hcnotavail _ _ heq') (h ▸ h1)
              rw [if_neg hdc, hpp]
              exact hg.availPid _ q heq' d h1
            · have hdc : d = c := by simpa using h1
              subst hdc
              rw [if_pos rfl, hpp]
          · rw [if_neg hpp] at hq'
            have hdc : d ≠ c := fun h => (hcnotavail p q' hq') (h ▸ hd)
            rw [if_neg hdc]
            exact hg.availPid p q' hq' d hd
        · intro p q' hq' d hd
          simp only at hq' ⊢
          by_cases hpp : p = (s.sess c).pid
          · rw [if_pos hpp] at hq'
            injection hq' with h2
            subst h2
            rcases List.mem_append.mp hd with h1 | h1
            · intro hmem
              exact hg.availHeld _ q heq' d h1 (List.mem_of_mem_erase hmem)
            · have hdc : d = c := by simpa using h1
              subst hdc
              exact hnd.not_mem_erase
          · rw [if_neg hpp] at hq'
            intro hmem
            exact hg.availHeld p q' hq' d hd (List.mem_of_mem_erase hmem)
        · intro d hd
          simp only at hd ⊢
          have hdheld : d ∈ s.held := List.mem_of_mem_erase hd
          have hdc : d ≠ c := fun h => hnd.not_mem_erase (h ▸ hd)
          rw [if_neg hdc]
          exact hg.heldBusy d hdheld
        · exact hnd.erase c
        · intro p q' hq' d hd
          simp only at hq'
          by_cases hpp : p = (s.sess c).pid
          · rw [if_pos hpp] at hq'
            injection hq' with h2
            subst h2
            rcases List.mem_append.mp hd with h1 | h1
            · exact hg.availFresh _ q heq' d h1
            · have hdc : d = c := by simpa using h1
              subst hdc
              exact hcfresh
          · rw [if_neg hpp] at hq'
            exact hg.availFresh p q' hq' d hd
        · intro d hd
          exact hg.heldFresh d (List.mem_of_mem_erase hd)
      · -- the key is gone: KeyError after the busy/timestamp mutation
        injection hstep with h
        subst h
        refine { bound := hg.bound, availNotBusy := ?_, availNodup := hg.availNodup,
                 availPid := ?_, availHeld := ?_, heldBusy := ?_, heldNodup := hnd.erase c,
                 availFresh := hg.availFresh, heldFresh := ?_ }
        · intro p q' hq' d hd
          simp only at hq' ⊢
          have hdc : d ≠ c := fun h => (hcnotavail p q' hq') (h ▸ hd)
          rw [if_neg hdc]
          exact hg.availNotBusy p q' hq' d hd
        · intro p q' hq' d hd
          simp only at hq' ⊢
          have hdc : d ≠ c := fun h => (hcnotavail p q' hq') (h ▸ hd)
          rw [if_neg hdc]
          exact hg.availPid p q' hq' d hd
        · intro p q' hq' d hd
          intro hmem
          exact hg.availHeld p q' hq' d hd (List.mem_of_mem_erase hmem)
        · intro d hd
          simp only at hd ⊢
          have hdheld : d ∈ s.held := List.mem_of_mem_erase hd
          have hdc : d ≠ c := fun h => hnd.not_mem_erase (h ▸ hd)
          rw [if_neg hdc]
          exact hg.heldBusy d hdheld
        · intro d hd
          exact hg.heldFresh d (List.mem_of_mem_erase hd)
    · -- invalid: self-deadlock in _remove_connection, no mutation
      injection hstep with h
      subst h
      exact hg
  · exact absurd hstep (by simp)

/-- Every pool transition preserves the invariant. -/
theorem poolStep_good (cfg : PoolConfig) (a : PoolAction) (s s' : PoolState)
    (hg : GoodState cfg s) (hstep : poolStep cfg a s = some s') : GoodState cfg s' := by
  cases a with
  | initKey pid => exact good_initKey cfg pid s s' hg hstep
  | acquireReuse pid now => exact good_acquireReuse cfg pid now s s' hg hstep
  | acquireCreate pid now => exact good_acquireCreate cfg pid now s s' hg hstep
  | returnConn c now => exact good_returnConn cfg c now s s' hg hstep
  | healthProbe c pid now => exact good_healthProbe cfg c pid now s s' hg hstep
  | shutdownPool => exact good_shutdown cfg s s' hg hstep

/-- The invariant holds along every run. -/
theorem runPool_good (cfg : PoolConfig) :
    ∀ (acts : List PoolAction) (s s' : PoolState), GoodState cfg s →
      runPool cfg acts s = some s' → GoodState cfg s' := by
  intro acts
  induction acts with
  | nil =>
    intro s s' hg hrun
    injection hrun with h
    subst h
    exact hg
  | cons a rest ih =>
    intro s s' hg hrun
    simp only [runPool] at hrun
    cases hstep : poolStep cfg a s with
    | none => rw [hstep] at hrun; simp at hrun
    | some s1 =>
      rw [hstep] at hrun
      exact ih s1 s' (poolStep_good cfg a s s1 hg hstep) hrun

/-- Every reachable pool state satisfies the invariant. -/
theorem poolReachable_good (cfg : PoolConfig) (s : PoolState)
    (h : PoolReachable cfg s) : GoodState cfg s := by
  obtain ⟨acts, hrun⟩ := h
  exact runPool_good cfg acts initialPoolState s (goodState_initial cfg) hrun

/-- **C1, counterexample.**  The subset conjunct `available[key] ⊆
all[key]` fails at a reachable state: create a session for pid 7, run
`shutdown` while the caller still holds it (shutdown clears both dicts
but cannot revoke a checked-out session), let a later `get_connection`
re-initialize the key's empty dict entries, and have the holder return
the still-valid session — `return_connection` pushes it into
`_available[7]` although `_connections[7]` no longer tracks it. -/
theorem c1_counterexample :
    ∃ s, PoolReachable defaultPoolConfig s ∧
      ∃ q l, s.avail 7 = some q ∧ s.conns 7 = some l ∧ 0 ∈ q ∧ 0 ∉ l := by
  have h : (runPool defaultPoolConfig
      [.initKey 7, .acquireCreate 7 0, .shutdownPool, .initKey 7, .returnConn 0 10]
      initialPoolState).map (fun s => (s.avail 7, s.conns 7)) =
        some (some [0], some []) := rfl
  cases hrun : runPool defaultPoolConfig
      [.initKey 7, .acquireCreate 7 0, .shutdownPool, .initKey 7, .returnConn 0 10]
      initialPoolState with
  | none => rw [hrun] at h; simp at h
  | some s =>
    rw [hrun, Option.map_some'] at h
    injection h with h2
    exact ⟨s, ⟨_, hrun⟩, [0], [], congrArg Prod.fst h2, congrArg Prod.snd h2,
      by decide, by decide⟩

/-- **C1, amended.**  At every reachable pool state, for every
target-process key, the number of tracked sessions `|all[k]|` never
exceeds `max_size`, and every session held in `available[k]` has
`is_busy = false`.  The third conjunct of the claim — `available[k] ⊆
all[k]` — does **not** hold in general (see the counterexample): a
session checked out across a `shutdown` is pushed back into the re-created
`available[k]` without being re-registered in `all[k]`. -/
theorem c1_pool_invariant (cfg : PoolConfig) (s : PoolState)
    (h : PoolReachable cfg s) :
    (∀ pid l, s.conns pid = some l → l.length ≤ cfg.max_size) ∧
      (∀ pid q, s.avail pid = some q → ∀ c ∈ q, (s.sess c).is_busy = false) := by
  have hg := poolReachable_good cfg s h
  exact ⟨hg.bound, hg.availNotBusy⟩

/-- Witness for `c1_pool_invariant`: at the reachable state after
creating one session for pid 7, the tracked list `[0]` respects the
bound. -/
theorem c1_witness : ([0] : List Nat).length ≤ defaultPoolConfig.max_size :=
  (c1_pool_invariant defaultPoolConfig _
    ⟨[.initKey 7, .acquireCreate 7 0], rfl⟩).1 7 [0] rfl
